import Mathlib

/-!
Verification of `chrome/common/extensions/docs/server2/intro_data_source.py`.

The source has three parts:
* `_IntroParser` — an `HTMLParser` subclass extracting a table of contents
  and a page title from start-tag / end-tag / data events;
* `IntroDataSource._MakeIntroDict` — runs the parser over the raw intro
  markup, strips the first `<h1...>...</h1>` block with
  `re.sub('<h1[^>.]*?>.*?</h1>', '', intro, count=1)` (DOTALL), and wraps
  the body in a Handlebar template;
* `IntroDataSource.get` — resolves a key against an ordered list of base
  paths, falling through on `FileNotFoundError` only, and raising
  `ValueError` when every base path misses.

Machine-level collaborators that are not part of the repository snapshot
(`FormatKey`, the file-backed cache, the Handlebar compiler, and the stdlib
`HTMLParser` tokenizer) are modelled from the spec, as marked below.
-/

/-- A level-3 heading entry: the dict `{'link': id, 'title': text}` built in
`_IntroParser.handle_starttag` for an `h3` tag. -/
structure Subheading where
  link : String
  title : String
deriving DecidableEq, Repr

/-- A level-2 heading entry: the dict
`{'link': id, 'subheadings': [...], 'title': text}` appended to `toc`. -/
structure TocEntry where
  link : String
  title : String
  subheadings : List Subheading
deriving DecidableEq, Repr

/-- Which dict `_IntroParser._current_heading` aliases.  In the Python code
the field holds a mutable dict; every assignment makes it alias either the
entry just appended to `toc` (an `h2`, case `sec`) or the subheading just
appended to the last entry's `subheadings` (an `h3`, case `sub`).  `init`
is the initial empty dict `{}`, which is never written before the first
`h2`/`h3` start tag. -/
inductive Focus where
  | init
  | sec
  | sub
deriving DecidableEq, Repr

/-- The mutable state of `_IntroParser`. -/
structure IntroParserState where
  toc : List TocEntry
  page_title : Option String
  recent_tag : Option String
  current : Focus
deriving DecidableEq, Repr

/-- Runtime errors the parser can raise: `self.toc[-1]` on an empty list
raises `IndexError`; `{}['title']` would raise `KeyError`. -/
inductive ParseError where
  | indexError
  | keyError
deriving DecidableEq, Repr

/-- `_IntroParser.__init__`: empty toc, no title, no recent tag, and the
initial `{}` current heading. -/
def initState : IntroParserState :=
  { toc := [], page_title := none, recent_tag := none, current := .init }

/-- The `id_` extraction loop in `handle_starttag`:
`for attr in attrs: if attr[0] == 'id': id_ = attr[1]` (last `id` wins,
default `''`). -/
def extractId (attrs : List (String × String)) : String :=
  attrs.foldl (fun id_ attr => if attr.1 = "id" then attr.2 else id_) ""

/-- `toc[-1]['subheadings'].append(h)`: append `h` to the subheadings of the
last toc entry.  (Only called with a nonempty list; on `[]` the Python code
raises before reaching the append, see `handle_starttag`.) -/
def appendSubToLast (h : Subheading) : List TocEntry → List TocEntry
  | [] => []
  | [e] => [{ e with subheadings := e.subheadings ++ [h] }]
  | e :: rest => e :: appendSubToLast h rest

/-- `self._current_heading['title'] += data` when the current heading is the
last toc entry. -/
def addTitleLast (d : String) : List TocEntry → List TocEntry
  | [] => []
  | [e] => [{ e with title := e.title ++ d }]
  | e :: rest => e :: addTitleLast d rest

/-- Append `d` to the title of the last subheading. -/
def mapLastSub (d : String) : List Subheading → List Subheading
  | [] => []
  | [u] => [{ u with title := u.title ++ d }]
  | u :: rest => u :: mapLastSub d rest

/-- `self._current_heading['title'] += data` when the current heading is the
last subheading of the last toc entry. -/
def addSubTitleLast (d : String) : List TocEntry → List TocEntry
  | [] => []
  | [e] => [{ e with subheadings := mapLastSub d e.subheadings }]
  | e :: rest => e :: addSubTitleLast d rest

/-- `_IntroParser.handle_starttag`.  Faithful transcription: non-heading
tags return immediately; `self._recent_tag = tag` runs unless the tag is
`h1` and a page title already exists; an `h2` appends a fresh entry to
`toc`; an `h3` appends a fresh subheading to `self.toc[-1]`, which raises
`IndexError` when `toc` is empty. -/
def handle_starttag (st : IntroParserState) (tag : String)
    (attrs : List (String × String)) : Except ParseError IntroParserState :=
  if tag = "h1" ∨ tag = "h2" ∨ tag = "h3" then
    let st1 := if tag ≠ "h1" ∨ st.page_title = none then
      { st with recent_tag := some tag } else st
    let id_ := extractId attrs
    if tag = "h2" then
      .ok { st1 with toc := st1.toc ++ [⟨id_, "", []⟩], current := .sec }
    else if tag = "h3" then
      if st1.toc = [] then .error .indexError
      else .ok { st1 with toc := appendSubToLast ⟨id_, ""⟩ st1.toc,
                          current := .sub }
    else .ok st1
  else .ok st

/-- `_IntroParser.handle_endtag`: clear `_recent_tag` on `h1`/`h2`/`h3`. -/
def handle_endtag (st : IntroParserState) (tag : String) : IntroParserState :=
  if tag = "h1" ∨ tag = "h2" ∨ tag = "h3" then
    { st with recent_tag := none }
  else st

/-- `_IntroParser.handle_data`.  With `_recent_tag == 'h1'` the data goes to
`page_title` (`= data` first, `+= data` after); with `'h2'`/`'h3'` it goes
to `self._current_heading['title']`, i.e. to whichever dict `current`
aliases (`{}['title']` on the initial dict would raise `KeyError`). -/
def handle_data (st : IntroParserState) (d : String) :
    Except ParseError IntroParserState :=
  match st.recent_tag with
  | none => .ok st
  | some t =>
    if t = "h1" then
      let pt' := match st.page_title with
        | none => d
        | some pt => pt ++ d
      .ok { st with page_title := some pt' }
    else if t = "h2" ∨ t = "h3" then
      match st.current with
      | .init => .error .keyError
      | .sec => .ok { st with toc := addTitleLast d st.toc }
      | .sub => .ok { st with toc := addSubTitleLast d st.toc }
    else .ok st

/-- One markup event, as delivered by `HTMLParser` to its handler methods. -/
inductive HEvent where
  | starttag (tag : String) (attrs : List (String × String))
  | endtag (tag : String)
  | data (s : String)
deriving DecidableEq, Repr

/-- Dispatch one event to the matching `_IntroParser` handler. -/
def processEvent (st : IntroParserState) : HEvent →
    Except ParseError IntroParserState
  | .starttag t a => handle_starttag st t a
  | .endtag t => .ok (handle_endtag st t)
  | .data d => handle_data st d

/-- Run the parser over a list of events; an exception raised by a handler
propagates (aborts the feed). -/
def runEvents (st : IntroParserState) : List HEvent →
    Except ParseError IntroParserState
  | [] => .ok st
  | e :: es => (processEvent st e).bind (fun st' => runEvents st' es)

/-! ## Event generation

`_IntroParser` inherits `feed` from the stdlib `HTMLParser`, which is not
part of this repository.  Modelled from the spec: the parser "consumes a
markup document as a sequence of tag-open, tag-close, and text events"
(§4.1); the tokenizer below produces that event sequence for plain markup
(tags with optionally quoted attributes, text runs between tags), with tag
and attribute names lowercased as `HTMLParser` does.  Entity references,
comments and CDATA content are outside the spec's scope and not modelled. -/

/-- Characters allowed in a tag name (`HTMLParser`'s
`[a-zA-Z][-.a-zA-Z0-9:_]*` shape, approximated). -/
def isNameChar (c : Char) : Bool :=
  c.isAlphanum || c = '-' || c = '.' || c = ':' || c = '_'

/-- Characters allowed in an attribute name. -/
def attrNameChar (c : Char) : Bool :=
  !(c = '=' || c = ' ' || c = '/' || c = '"' || c = '>')

/-- Lowercase a character list into a string (tag and attribute names are
lowercased by `HTMLParser`). -/
def lowerStr (l : List Char) : String :=
  String.mk (l.map Char.toLower)

/-- Parse the attribute portion of a start tag into `(name, value)` pairs:
`name="value"`, `name=value`, or a bare `name` (value modelled as `""`).
The fuel argument (instantiated with the list length, which bounds the
number of attributes) makes the recursion structural. -/
def parseAttrsAux : Nat → List Char → List (String × String)
  | 0, _ => []
  | _ + 1, [] => []
  | fuel + 1, c :: rest =>
    if attrNameChar c then
      let name := (c :: rest).takeWhile attrNameChar
      let r := (c :: rest).dropWhile attrNameChar
      match r with
      | '=' :: '"' :: r2 =>
        (lowerStr name, String.mk (r2.takeWhile (fun x => x ≠ '"'))) ::
          parseAttrsAux fuel ((r2.dropWhile (fun x => x ≠ '"')).drop 1)
      | '=' :: r2 =>
        (lowerStr name, String.mk (r2.takeWhile (fun x => x ≠ ' '))) ::
          parseAttrsAux fuel (r2.dropWhile (fun x => x ≠ ' '))
      | _ => (lowerStr name, "") :: parseAttrsAux fuel r
    else parseAttrsAux fuel rest

/-- Split the contents of a tag: everything up to the first `'>'`, and the
remainder of the document after that `'>'`. -/
def splitTag : List Char → List Char × List Char
  | [] => ([], [])
  | c :: rest =>
    if c = '>' then ([], rest)
    else
      let p := splitTag rest
      (c :: p.1, p.2)

/-- Turn the contents of one `<...>` group into an event: `</name>` is an
end tag, otherwise a start tag with its attributes. -/
def parseTagEvent (inner : List Char) : HEvent :=
  match inner with
  | '/' :: rest => .endtag (lowerStr (rest.takeWhile isNameChar))
  | _ =>
    .starttag (lowerStr (inner.takeWhile isNameChar))
      (parseAttrsAux inner.length (inner.dropWhile isNameChar))

/-- Tokenize markup into events; the fuel argument (instantiated with the
list length, which bounds the number of events) makes the recursion
structural.  A text run extends to the next `'<'` and is delivered as one
data event, as a single `HTMLParser.feed` call does. -/
def tokenizeAux : Nat → List Char → List HEvent
  | 0, _ => []
  | _ + 1, [] => []
  | fuel + 1, c :: rest =>
    if c = '<' then
      let p := splitTag rest
      parseTagEvent p.1 :: tokenizeAux fuel p.2
    else
      .data (String.mk ((c :: rest).takeWhile (fun x => x ≠ '<'))) ::
        tokenizeAux fuel ((c :: rest).dropWhile (fun x => x ≠ '<'))

/-- Event sequence of a markup document. -/
def tokenize (l : List Char) : List HEvent :=
  tokenizeAux l.length l

/-- `parser.feed(intro)`: run `_IntroParser` over the document's events. -/
def feed (st : IntroParserState) (s : String) :
    Except ParseError IntroParserState :=
  runEvents st (tokenize s.data)

/-! ## The title-block strip

`IntroDataSource.__init__` compiles `<h1[^>.]*?>.*?</h1>` with `re.DOTALL`,
and `_MakeIntroDict` runs `re.sub(regex, '', intro, count=1)`.  The lazy
`[^>.]*?` can only consume characters up to the first `'>'` or `'.'` after
`<h1` (failing on `'.'`), and the lazy `.*?` (DOTALL: any character,
newlines included) extends to the earliest `</h1>`; `re.sub` removes the
leftmost such match only. -/

/-- Match `[^>.]*?>` lazily: number of characters consumed through the
first `'>'`, failing if a `'.'` (or the end) comes first. -/
def scanOpen : List Char → Option Nat
  | [] => none
  | c :: cs =>
    if c = '>' then some 1
    else if c = '.' then none
    else (scanOpen cs).map (· + 1)

/-- Match `.*?</h1>` lazily: number of characters consumed through the end
of the earliest `</h1>`. -/
def scanClose : List Char → Option Nat
  | [] => none
  | c :: cs =>
    if (c :: cs).take 5 = ['<', '/', 'h', '1', '>'] then some 5
    else (scanClose cs).map (· + 1)

/-- Length of the match of `<h1[^>.]*?>.*?</h1>` anchored at the head of
`l`, if any. -/
def matchAt (l : List Char) : Option Nat :=
  if l.take 3 = ['<', 'h', '1'] then
    (scanOpen (l.drop 3)).bind fun a =>
      (scanClose (l.drop (3 + a))).map fun b => 3 + a + b
  else none

/-- `re.sub('<h1[^>.]*?>.*?</h1>', '', intro, count=1)`: delete the
leftmost match, leave everything else unchanged. -/
def subFirst : List Char → List Char
  | [] => []
  | c :: cs =>
    match matchAt (c :: cs) with
    | some n => (c :: cs).drop n
    | none => c :: subFirst cs

/-- String wrapper for `subFirst`. -/
def stripFirstH1 (s : String) : String :=
  String.mk (subFirst s.data)

/-! ## The artifact builder and the resolver -/

/-- Modelled from the spec: the template-compiler collaborator
(`third_party.handlebar.Handlebar`, not in the snapshot) is an opaque
"compile markup into renderable template" capability; the compiled object
is modelled as a wrapper retaining its source. -/
structure Handlebar where
  source : String
deriving DecidableEq, Repr

/-- The dict returned by `IntroDataSource._MakeIntroDict`:
`{'intro': Handlebar(intro), 'toc': parser.toc, 'title': parser.page_title}`. -/
structure IntroDict where
  intro : Handlebar
  toc : List TocEntry
  title : Option String
deriving DecidableEq, Repr

/-- `IntroDataSource._MakeIntroDict`: feed the raw markup to a fresh
`_IntroParser` (an exception from the parser propagates), strip the first
`<h1...>...</h1>` block, and assemble the artifact. -/
def _MakeIntroDict (intro : String) : Except ParseError IntroDict :=
  (feed initState intro).map fun parser =>
    { intro := ⟨stripFirstH1 intro⟩,
      toc := parser.toc,
      title := parser.page_title }

/-- The exceptions `IntroDataSource.get` deals in: `FileNotFoundError`
(raised by the file system, caught by `get`), the `ValueError` `get` itself
raises on exhaustion, and any other propagating exception (e.g. a template
compilation failure), each carrying its `str(...)` message. -/
inductive PyError where
  | fileNotFound (msg : String)
  | valueError (msg : String)
  | otherError (msg : String)
deriving DecidableEq, Repr

/-- `str(error)` for the `error` variable of `IntroDataSource.get`:
`"None"` when no `FileNotFoundError` was caught (Python's `str(None)`),
otherwise the message of the last one caught. -/
def strOfLastError : Option String → String
  | none => "None"
  | some m => m

namespace IntroDataSource

/-- The `for base_path in self._base_paths` loop of `IntroDataSource.get`,
with the accumulated `error` variable.  `fetch` stands for
`self._cache.GetFromFile` (modelled from the spec: the memoizing cache
backed by the file-access collaborator, not in the snapshot): it returns
the artifact, or raises.  Only `FileNotFoundError` is caught (falling
through to the next base path, remembering the message); any other
exception propagates; exhaustion raises
`ValueError(str(error) + ': No intro found for "key".')`. -/
def getGo (fetch : String → Except PyError IntroDict)
    (key real_path : String) :
    List String → Option String → Except PyError IntroDict
  | [], error =>
    .error (.valueError
      (strOfLastError error ++ ": No intro found for \"" ++ key ++ "\"."))
  | base_path :: rest, _error =>
    match fetch (base_path ++ "/" ++ real_path) with
    | .ok d => .ok d
    | .error (.fileNotFound m) => getGo fetch key real_path rest (some m)
    | .error e => .error e

/-- `IntroDataSource.get`.  `formatKey` stands for `FormatKey` (modelled
from the spec: the system-wide pure key-formatting function
`format(key) -> relativePath`, not in the snapshot). -/
def get (fetch : String → Except PyError IntroDict)
    (formatKey : String → String) (base_paths : List String)
    (key : String) : Except PyError IntroDict :=
  getGo fetch key (formatKey key) base_paths none

end IntroDataSource

/-! ## Canonical well-formed documents, and auxiliary predicates -/

/-- Description of one level-3 child: its `id` attribute and its text. -/
structure SubSpec where
  sid : String
  stext : String
deriving DecidableEq, Repr

/-- Description of one level-2 section: its `id` attribute, its text, and
its level-3 children. -/
structure SecSpec where
  hid : String
  htext : String
  subs : List SubSpec
deriving DecidableEq, Repr

/-- Events of one level-3 heading. -/
def subEvents (u : SubSpec) : List HEvent :=
  [.starttag "h3" [("id", u.sid)], .data u.stext, .endtag "h3"]

/-- Events of one level-2 heading followed by its level-3 children. -/
def secEvents (s : SecSpec) : List HEvent :=
  [.starttag "h2" [("id", s.hid)], .data s.htext, .endtag "h2"] ++
    s.subs.flatMap subEvents

/-- Events of a document with exactly one level-1 heading of text `t`
followed by the given level-2 sections. -/
def docEvents (t : String) (secs : List SecSpec) : List HEvent :=
  [.starttag "h1" [], .data t, .endtag "h1"] ++ secs.flatMap secEvents

/-- The toc subheading the parser is expected to build for a level-3
child. -/
def subEntry (u : SubSpec) : Subheading :=
  ⟨u.sid, u.stext⟩

/-- The toc entry the parser is expected to build for a level-2 section. -/
def secEntry (s : SecSpec) : TocEntry :=
  ⟨s.hid, s.htext, s.subs.map subEntry⟩

/-- Is this event the opening of a level-2 or level-3 heading? -/
def isSecStart : HEvent → Bool
  | .starttag t _ => t = "h2" || t = "h3"
  | _ => false

/-- Is this event the opening of a level-1 heading? -/
def isH1Start : HEvent → Bool
  | .starttag t _ => t = "h1"
  | _ => false

/-- Does a level-1 open tag begin here: a `'<'` whose next two characters
lowercase to `h`, `1`?  (Case-insensitive, matching `HTMLParser`'s
tag-name lowercasing.) -/
def isH1OpenAt : List Char → Bool
  | '<' :: c1 :: c2 :: _ => c1.toLower = 'h' && c2.toLower = '1'
  | _ => false

/-- Does a level-1 open tag occur at any position of the document? -/
def hasH1Open : List Char → Bool
  | [] => false
  | c :: rest => isH1OpenAt (c :: rest) || hasH1Open rest

/-! ## Concrete fixtures used by the witnesses -/

/-- A concrete artifact used by the resolver witnesses. -/
def artEx : IntroDict :=
  { intro := ⟨"body"⟩, toc := [], title := some "t" }

/-- A concrete `GetFromFile` for which only `B/k.html` exists. -/
def fetchOnlyB : String → Except PyError IntroDict :=
  fun s => if s = "B/k.html" then .ok artEx
           else .error (.fileNotFound ("missing " ++ s))

/-- A concrete `GetFromFile` for which no file exists. -/
def fetchNone : String → Except PyError IntroDict :=
  fun s => .error (.fileNotFound ("missing " ++ s))

/-- A concrete `GetFromFile` for which `A/k.html` is missing and
`B/k.html` fails to compile. -/
def fetchBoom : String → Except PyError IntroDict :=
  fun s => if s = "B/k.html" then .error (.otherError "compile failure")
           else .error (.fileNotFound ("missing " ++ s))

/-- A concrete `FormatKey`. -/
def fmtEx : String → String :=
  fun k => k ++ ".html"

/-! ## Theorems -/

/-- Skipping a prefix of base paths that all report file-not-found: the
loop continues on the remaining base paths with some accumulated error. -/
theorem getGo_skip (fetch : String → Except PyError IntroDict)
    (key rp : String) (bps1 : List String) :
    ∀ (l2 : List String) (err : Option String),
    (∀ bp ∈ bps1, ∃ m, fetch (bp ++ "/" ++ rp) = .error (.fileNotFound m)) →
    ∃ err', IntroDataSource.getGo fetch key rp (bps1 ++ l2) err =
            IntroDataSource.getGo fetch key rp l2 err' := by
  induction bps1 with
  | nil => exact fun l2 err _ => ⟨err, rfl⟩
  | cons bp rest ih =>
    intro l2 err h
    obtain ⟨m, hm⟩ := h bp (List.mem_cons_self bp rest)
    have hrest : ∀ bp ∈ rest, ∃ m,
        fetch (bp ++ "/" ++ rp) = .error (.fileNotFound m) :=
      fun b hb => h b (List.mem_cons_of_mem bp hb)
    obtain ⟨err', herr'⟩ := ih l2 (some m) hrest
    refine ⟨err', ?_⟩
    rw [List.cons_append, IntroDataSource.getGo, hm]
    exact herr'

/-- C3: for every key and configured base paths, `get` tries the base
paths in order and returns the artifact from the first base path whose
file exists, without trying any later base path: with base paths
`bps1 ++ p :: bps2` where every path in `bps1` reports file-not-found and
`p`'s file exists (fetch succeeds), `get` returns `p`'s artifact — the
paths in `bps2` are arbitrary and never consulted. -/
theorem c3_get_first_existing_wins
    (fetch : String → Except PyError IntroDict)
    (formatKey : String → String) (bps1 bps2 : List String)
    (p key : String) (art : IntroDict)
    (h1 : ∀ bp ∈ bps1, ∃ m,
      fetch (bp ++ "/" ++ formatKey key) = .error (.fileNotFound m))
    (h2 : fetch (p ++ "/" ++ formatKey key) = .ok art) :
    IntroDataSource.get fetch formatKey (bps1 ++ p :: bps2) key = .ok art := by
  unfold IntroDataSource.get
  obtain ⟨err', herr'⟩ :=
    getGo_skip fetch key (formatKey key) bps1 (p :: bps2) none h1
  rw [herr', IntroDataSource.getGo, h2]

/-- Witness for C3: base paths `["A", "B"]`, the file exists only under
`B`; `get` returns `B`'s artifact and does not raise. -/
theorem c3_witness :
    IntroDataSource.get fetchOnlyB fmtEx ["A", "B"] "k" = .ok artEx :=
  c3_get_first_existing_wins fetchOnlyB fmtEx ["A"] [] "B" "k" artEx
    (by
      intro bp hbp
      simp only [List.mem_singleton] at hbp
      subst hbp
      exact ⟨"missing A/k.html", rfl⟩)
    rfl

/-- C4: if every base path reports file-not-found, `get` fails with the
resolver's terminal error (the raised `ValueError`), whose message carries
the last underlying not-found detail and references the original key. -/
theorem c4_get_exhaustion_error
    (fetch : String → Except PyError IntroDict)
    (formatKey : String → String) (bps : List String)
    (p key m : String)
    (h1 : ∀ bp ∈ bps, ∃ d,
      fetch (bp ++ "/" ++ formatKey key) = .error (.fileNotFound d))
    (h2 : fetch (p ++ "/" ++ formatKey key) = .error (.fileNotFound m)) :
    IntroDataSource.get fetch formatKey (bps ++ [p]) key =
      .error (.valueError
        (m ++ ": No intro found for \"" ++ key ++ "\".")) := by
  unfold IntroDataSource.get
  obtain ⟨err', herr'⟩ :=
    getGo_skip fetch key (formatKey key) bps [p] none h1
  rw [herr', IntroDataSource.getGo, h2]
  rfl

/-- Witness for C4: base paths `["A", "B"]`, neither contains the file;
the error message names the key `"k"` and embeds the last not-found
detail. -/
theorem c4_witness :
    IntroDataSource.get fetchNone fmtEx ["A", "B"] "k" =
      .error (.valueError
        ("missing B/k.html" ++ ": No intro found for \"" ++ "k" ++ "\".")) :=
  c4_get_exhaustion_error fetchNone fmtEx ["A"] "B" "k" "missing B/k.html"
    (by
      intro bp hbp
      simp only [List.mem_singleton] at hbp
      subst hbp
      exact ⟨"missing A/k.html", rfl⟩)
    rfl

/-- C9: an error other than file-not-found (e.g. a compile failure) on
some base path propagates immediately: with `bps1` all file-not-found and
`p` raising a non-file-not-found error, `get` fails with exactly that
error and never consults the remaining paths `bps2`. -/
theorem c9_get_other_error_propagates
    (fetch : String → Except PyError IntroDict)
    (formatKey : String → String) (bps1 bps2 : List String)
    (p key msg : String)
    (h1 : ∀ bp ∈ bps1, ∃ d,
      fetch (bp ++ "/" ++ formatKey key) = .error (.fileNotFound d))
    (h2 : fetch (p ++ "/" ++ formatKey key) = .error (.otherError msg)) :
    IntroDataSource.get fetch formatKey (bps1 ++ p :: bps2) key =
      .error (.otherError msg) := by
  unfold IntroDataSource.get
  obtain ⟨err', herr'⟩ :=
    getGo_skip fetch key (formatKey key) bps1 (p :: bps2) none h1
  rw [herr', IntroDataSource.getGo, h2]

/-- Witness for C9: `A` misses, `B` fails to compile, `C` would exist but
is never tried; `get` raises the compile failure. -/
theorem c9_witness :
    IntroDataSource.get fetchBoom fmtEx ["A", "B", "C"] "k" =
      .error (.otherError "compile failure") :=
  c9_get_other_error_propagates fetchBoom fmtEx ["A"] ["C"] "B" "k"
    "compile failure"
    (by
      intro bp hbp
      simp only [List.mem_singleton] at hbp
      subst hbp
      exact ⟨"missing A/k.html", rfl⟩)
    rfl

/-- C2: on the concrete input
`<h1>Title</h1><p>x</p><h2 id="a">A</h2><h3 id="a1">A1</h3>`, the builder
yields title `"Title"`, a toc with one section (anchor `"a"`, title `"A"`)
containing one subheading (anchor `"a1"`, title `"A1"`), and a body equal
to `<p>x</p><h2 id="a">A</h2><h3 id="a1">A1</h3>`. -/
theorem c2_concrete_example :
    _MakeIntroDict
      "<h1>Title</h1><p>x</p><h2 id=\"a\">A</h2><h3 id=\"a1\">A1</h3>" =
    .ok { intro := ⟨"<p>x</p><h2 id=\"a\">A</h2><h3 id=\"a1\">A1</h3>"⟩,
          toc := [⟨"a", "A", [⟨"a1", "A1"⟩]⟩],
          title := some "Title" } := rfl

/-- C10: the strip pattern `<h1[^>.]*?>.*?</h1>` does not match an `h1`
open tag whose attribute text contains `'.'`: on `<h1 id="a.b">T</h1>rest`
the whole block stays in the body, while the parser still extracts the
page title `"T"`. -/
theorem c10_dot_attribute_not_stripped :
    stripFirstH1 "<h1 id=\"a.b\">T</h1>rest" = "<h1 id=\"a.b\">T</h1>rest" ∧
    _MakeIntroDict "<h1 id=\"a.b\">T</h1>rest" =
      .ok { intro := ⟨"<h1 id=\"a.b\">T</h1>rest"⟩,
            toc := [],
            title := some "T" } :=
  ⟨rfl, rfl⟩

/-- C6 counterexample: in the event sequence
`<h1>A</h1><h1>B</h1>` both level-1 headings occur before any level-2 or
level-3 tag, yet the parser's title is `"A"`, not the concatenation
`"AB"`: after the first heading sets the title, the second `h1` open tag
does not reopen capture (`self.page_title is None` fails), so its text is
dropped. -/
theorem c6_counterexample :
    runEvents initState
      [.starttag "h1" [], .data "A", .endtag "h1",
       .starttag "h1" [], .data "B", .endtag "h1"] =
      .ok { toc := [], page_title := some "A", recent_tag := none,
            current := .init } ∧
    (some "A" : Option String) ≠ some "AB" ∧
    runEvents initState
      [.starttag "h2" [("id", "a")], .data "S", .endtag "h2",
       .starttag "h1" [], .data "T", .endtag "h1"] =
      .ok { toc := [⟨"a", "S", []⟩], page_title := some "T",
            recent_tag := none, current := .sec } :=
  ⟨rfl, by decide, rfl⟩

/-- C6 amended: a level-1 open tag opens (or leaves open) title capture iff
the page title is still unset, and otherwise changes nothing — capture is
not keyed to whether an H2/H3 has been seen.  Text of multiple level-1
headings is therefore concatenated only while the title has not yet
received text, e.g. when the first `h1` is still unclosed at the second
`h1` open tag, as the concrete run shows. -/
theorem c6_amended_h1_capture_rule :
    (∀ (st : IntroParserState) (attrs : List (String × String)),
      handle_starttag st "h1" attrs =
        .ok (if st.page_title = none
             then { st with recent_tag := some "h1" } else st)) ∧
    runEvents initState
      [.starttag "h1" [], .data "A", .starttag "h1" [], .data "B",
       .endtag "h1"] =
      .ok { toc := [], page_title := some "AB", recent_tag := none,
            current := .init } := by
  refine ⟨fun st attrs => ?_, rfl⟩
  by_cases h : st.page_title = none <;>
    simp [handle_starttag, h]

/-- Splitting a run of the parser at an append of event lists. -/
theorem runEvents_append (xs : List HEvent) :
    ∀ (st : IntroParserState) (ys : List HEvent),
    runEvents st (xs ++ ys) =
      (runEvents st xs).bind (fun st' => runEvents st' ys) := by
  induction xs with
  | nil => intro st ys; rfl
  | cons e es ih =>
    intro st ys
    rw [List.cons_append, runEvents, runEvents]
    cases processEvent st e with
    | error err => rfl
    | ok st' => exact ih st' ys

/-- Invariant of a run that has seen no `h2`/`h3` open tag: the toc is
empty, the current-heading alias is still the initial dict, and the recent
tag is `h1` at most; no handler has raised. -/
theorem runEvents_no_sec_start (pre : List HEvent) :
    ∀ (st : IntroParserState),
    (∀ e ∈ pre, isSecStart e = false) →
    st.toc = [] → st.current = .init →
    (st.recent_tag = none ∨ st.recent_tag = some "h1") →
    ∃ st', runEvents st pre = .ok st' ∧
      st'.toc = [] ∧ st'.current = .init ∧
      (st'.recent_tag = none ∨ st'.recent_tag = some "h1") := by
  induction pre with
  | nil => exact fun st _ h1 h2 h3 => ⟨st, rfl, h1, h2, h3⟩
  | cons e es ih =>
    intro st hpre htoc hcur hrec
    have he : isSecStart e = false := hpre e (List.mem_cons_self e es)
    have hes : ∀ x ∈ es, isSecStart x = false :=
      fun x hx => hpre x (List.mem_cons_of_mem e hx)
    rw [runEvents]
    cases e with
    | starttag t a =>
      have ht2 : t ≠ "h2" := by
        intro h; rw [h] at he; simp [isSecStart] at he
      have ht3 : t ≠ "h3" := by
        intro h; rw [h] at he; simp [isSecStart] at he
      by_cases ht1 : t = "h1"
      · subst ht1
        by_cases hpt : st.page_title = none
        · have : processEvent st (.starttag "h1" a) =
              .ok { st with recent_tag := some "h1" } := by
            simp [processEvent, handle_starttag, hpt]
          rw [this, Except.bind]
          exact ih _ hes htoc hcur (Or.inr rfl)
        · have : processEvent st (.starttag "h1" a) = .ok st := by
            simp [processEvent, handle_starttag, hpt]
          rw [this, Except.bind]
          exact ih _ hes htoc hcur hrec
      · have : processEvent st (.starttag t a) = .ok st := by
          simp [processEvent, handle_starttag, ht1, ht2, ht3]
        rw [this, Except.bind]
        exact ih _ hes htoc hcur hrec
    | endtag t =>
      have : processEvent st (.endtag t) = .ok (handle_endtag st t) := rfl
      rw [this, Except.bind]
      by_cases ht : t = "h1" ∨ t = "h2" ∨ t = "h3"
      · have hh : handle_endtag st t = { st with recent_tag := none } := by
          simp [handle_endtag, ht]
        rw [hh]
        exact ih _ hes htoc hcur (Or.inl rfl)
      · have hh : handle_endtag st t = st := by
          simp [handle_endtag, ht]
        rw [hh]
        exact ih _ hes htoc hcur hrec
    | data d =>
      rcases hrec with hrec | hrec
      · have : processEvent st (.data d) = .ok st := by
          simp [processEvent, handle_data, hrec]
        rw [this, Except.bind]
        exact ih _ hes htoc hcur (Or.inl hrec)
      · cases hpt : st.page_title with
        | none =>
          have : processEvent st (.data d) =
              .ok { st with page_title := some d } := by
            simp [processEvent, handle_data, hrec, hpt]
          rw [this, Except.bind]
          exact ih _ hes htoc hcur (Or.inr hrec)
        | some pt =>
          have : processEvent st (.data d) =
              .ok { st with page_title := some (pt ++ d) } := by
            simp [processEvent, handle_data, hrec, hpt]
          rw [this, Except.bind]
          exact ih _ hes htoc hcur (Or.inr hrec)

/-- C7: in every event sequence where a level-3 open tag arrives before
any level-2 heading has opened, handling that `h3` tag performs the
unguarded `self.toc[-1]` access on an empty toc and the feed raises
(`IndexError`), regardless of what follows. -/
theorem c7_h3_before_h2_raises (pre : List HEvent)
    (attrs : List (String × String)) (rest : List HEvent)
    (hpre : ∀ e ∈ pre, isSecStart e = false) :
    runEvents initState (pre ++ .starttag "h3" attrs :: rest) =
      .error .indexError := by
  obtain ⟨st', hrun, htoc, -, -⟩ :=
    runEvents_no_sec_start pre initState hpre rfl rfl (Or.inl rfl)
  rw [runEvents_append, hrun, Except.bind, runEvents]
  have : processEvent st' (.starttag "h3" attrs) = .error .indexError := by
    simp [processEvent, handle_starttag, htoc]
  rw [this]
  rfl

/-- Witness for C7: `<h1>T</h1><h3 id="x">…` — the `h3` opens with no
preceding `h2`, and the run raises `IndexError`. -/
theorem c7_witness :
    runEvents initState
      ([.starttag "h1" [], .data "T", .endtag "h1"] ++
        .starttag "h3" [("id", "x")] :: [.data "q"]) =
      .error .indexError :=
  c7_h3_before_h2_raises
    [.starttag "h1" [], .data "T", .endtag "h1"]
    [("id", "x")] [.data "q"] (by decide)

/-- `addTitleLast` acts on the last element. -/
theorem addTitleLast_append (d : String) :
    ∀ (acc : List TocEntry) (e : TocEntry),
    addTitleLast d (acc ++ [e]) = acc ++ [{ e with title := e.title ++ d }] := by
  intro acc
  induction acc with
  | nil => intro e; rfl
  | cons a acc' ih =>
    intro e
    cases acc' with
    | nil => rfl
    | cons b l =>
      show a :: addTitleLast d ((b :: l) ++ [e]) = _
      rw [ih e]
      rfl

/-- `appendSubToLast` acts on the last element. -/
theorem appendSubToLast_append (h : Subheading) :
    ∀ (acc : List TocEntry) (e : TocEntry),
    appendSubToLast h (acc ++ [e]) =
      acc ++ [{ e with subheadings := e.subheadings ++ [h] }] := by
  intro acc
  induction acc with
  | nil => intro e; rfl
  | cons a acc' ih =>
    intro e
    cases acc' with
    | nil => rfl
    | cons b l =>
      show a :: appendSubToLast h ((b :: l) ++ [e]) = _
      rw [ih e]
      rfl

/-- `mapLastSub` acts on the last element. -/
theorem mapLastSub_append (d : String) :
    ∀ (acc : List Subheading) (u : Subheading),
    mapLastSub d (acc ++ [u]) = acc ++ [{ u with title := u.title ++ d }] := by
  intro acc
  induction acc with
  | nil => intro u; rfl
  | cons a acc' ih =>
    intro u
    cases acc' with
    | nil => rfl
    | cons b l =>
      show a :: mapLastSub d ((b :: l) ++ [u]) = _
      rw [ih u]
      rfl

/-- `addSubTitleLast` acts on the last element. -/
theorem addSubTitleLast_append (d : String) :
    ∀ (acc : List TocEntry) (e : TocEntry),
    addSubTitleLast d (acc ++ [e]) =
      acc ++ [{ e with subheadings := mapLastSub d e.subheadings }] := by
  intro acc
  induction acc with
  | nil => intro e; rfl
  | cons a acc' ih =>
    intro e
    cases acc' with
    | nil => rfl
    | cons b l =>
      show a :: addSubTitleLast d ((b :: l) ++ [e]) = _
      rw [ih e]
      rfl

/-- Running the level-3 children of one section: each `h3` attaches to the
last toc entry (the section being built) and collects its text, in
document order. -/
theorem runEvents_subs :
    ∀ (subs : List SubSpec) (acc : List TocEntry) (hid htext : String)
      (done : List Subheading) (pt : Option String) (cur : Focus),
    ∃ cur', runEvents ⟨acc ++ [⟨hid, htext, done⟩], pt, none, cur⟩
        (subs.flatMap subEvents) =
      .ok ⟨acc ++ [⟨hid, htext, done ++ subs.map subEntry⟩], pt, none, cur'⟩ := by
  intro subs
  induction subs with
  | nil =>
    intro acc hid htext done pt cur
    exact ⟨cur, by simp [runEvents]⟩
  | cons u us ih =>
    intro acc hid htext done pt cur
    obtain ⟨cur', hrec⟩ := ih acc hid htext (done ++ [subEntry u]) pt .sub
    refine ⟨cur', ?_⟩
    have h3s : processEvent ⟨acc ++ [⟨hid, htext, done⟩], pt, none, cur⟩
        (.starttag "h3" [("id", u.sid)]) =
        .ok ⟨acc ++ [⟨hid, htext, done ++ [⟨u.sid, ""⟩]⟩], pt, some "h3", .sub⟩ := by
      simp [processEvent, handle_starttag, extractId, appendSubToLast_append]
    have h3d : processEvent ⟨acc ++ [⟨hid, htext, done ++ [⟨u.sid, ""⟩]⟩], pt,
        some "h3", .sub⟩ (.data u.stext) =
        .ok ⟨acc ++ [⟨hid, htext, done ++ [⟨u.sid, u.stext⟩]⟩], pt,
             some "h3", .sub⟩ := by
      simp [processEvent, handle_data, addSubTitleLast_append, mapLastSub_append]
    have h3e : processEvent ⟨acc ++ [⟨hid, htext, done ++ [⟨u.sid, u.stext⟩]⟩],
        pt, some "h3", .sub⟩ (.endtag "h3") =
        .ok ⟨acc ++ [⟨hid, htext, done ++ [⟨u.sid, u.stext⟩]⟩], pt,
             none, .sub⟩ := by
      simp [processEvent, handle_endtag]
    show runEvents _ (.starttag "h3" [("id", u.sid)] :: .data u.stext ::
      .endtag "h3" :: us.flatMap subEvents) = _
    rw [runEvents, h3s, Except.bind, runEvents, h3d, Except.bind,
        runEvents, h3e, Except.bind]
    simpa [subEntry] using hrec

/-- Running one level-2 section (heading plus children) appends exactly its
expected toc entry. -/
theorem runEvents_sec (s : SecSpec) (acc : List TocEntry)
    (pt : Option String) (cur : Focus) :
    ∃ cur', runEvents ⟨acc, pt, none, cur⟩ (secEvents s) =
      .ok ⟨acc ++ [secEntry s], pt, none, cur'⟩ := by
  obtain ⟨cur', hsubs⟩ := runEvents_subs s.subs acc s.hid s.htext [] pt .sec
  refine ⟨cur', ?_⟩
  have h2s : processEvent ⟨acc, pt, none, cur⟩
      (.starttag "h2" [("id", s.hid)]) =
      .ok ⟨acc ++ [⟨s.hid, "", []⟩], pt, some "h2", .sec⟩ := by
    simp [processEvent, handle_starttag, extractId]
  have h2d : processEvent ⟨acc ++ [⟨s.hid, "", []⟩], pt, some "h2", .sec⟩
      (.data s.htext) =
      .ok ⟨acc ++ [⟨s.hid, s.htext, []⟩], pt, some "h2", .sec⟩ := by
    simp [processEvent, handle_data, addTitleLast_append]
  have h2e : processEvent ⟨acc ++ [⟨s.hid, s.htext, []⟩], pt, some "h2", .sec⟩
      (.endtag "h2") =
      .ok ⟨acc ++ [⟨s.hid, s.htext, []⟩], pt, none, .sec⟩ := by
    simp [processEvent, handle_endtag]
  show runEvents _ (.starttag "h2" [("id", s.hid)] :: .data s.htext ::
    .endtag "h2" :: s.subs.flatMap subEvents) = _
  rw [runEvents, h2s, Except.bind, runEvents, h2d, Except.bind,
      runEvents, h2e, Except.bind]
  simpa [secEntry] using hsubs

/-- Running a list of level-2 sections appends their expected toc entries
in document order. -/
theorem runEvents_secs :
    ∀ (secs : List SecSpec) (acc : List TocEntry) (pt : Option String)
      (cur : Focus),
    ∃ cur', runEvents ⟨acc, pt, none, cur⟩ (secs.flatMap secEvents) =
      .ok ⟨acc ++ secs.map secEntry, pt, none, cur'⟩ := by
  intro secs
  induction secs with
  | nil =>
    intro acc pt cur
    exact ⟨cur, by simp [runEvents]⟩
  | cons s ss ih =>
    intro acc pt cur
    obtain ⟨c1, h1⟩ := runEvents_sec s acc pt cur
    obtain ⟨c2, h2⟩ := ih (acc ++ [secEntry s]) pt c1
    refine ⟨c2, ?_⟩
    rw [List.flatMap_cons, runEvents_append, h1, Except.bind]
    simpa using h2

/-- C1: for every document with exactly one level-1 heading (text `t`)
followed by level-2 headings each carrying its level-3 children, the
parser accepts, its toc lists exactly the level-2 sections in document
order — each with exactly its own subheadings in document order — and the
page title equals the level-1 heading's text. -/
theorem c1_canonical_document_structure (t : String) (secs : List SecSpec) :
    ∃ st, runEvents initState (docEvents t secs) = .ok st ∧
      st.toc = secs.map secEntry ∧
      st.page_title = some t ∧
      st.toc.length = secs.length := by
  obtain ⟨cur', hs⟩ := runEvents_secs secs [] (some t) .init
  refine ⟨⟨secs.map secEntry, some t, none, cur'⟩, ?_, rfl, rfl, by simp⟩
  show runEvents initState ([.starttag "h1" [], .data t, .endtag "h1"] ++
    secs.flatMap secEvents) = _
  rw [runEvents_append]
  have hh1 : runEvents initState
      [.starttag "h1" [], .data t, .endtag "h1"] =
      .ok ⟨[], some t, none, .init⟩ := rfl
  rw [hh1, Except.bind]
  simpa using hs

/-- The lazy `[^>.]*?>` consumes exactly through the closing `'>'` when the
attribute text contains neither `'>'` nor `'.'`. -/
theorem scanOpen_append :
    ∀ (attrs : List Char) (rest : List Char), '>' ∉ attrs → '.' ∉ attrs →
    scanOpen (attrs ++ '>' :: rest) = some (attrs.length + 1) := by
  intro attrs
  induction attrs with
  | nil => intro rest _ _; rfl
  | cons c cs ih =>
    intro rest hgt hdot
    have hc1 : c ≠ '>' := fun h => hgt (h ▸ List.mem_cons_self c cs)
    have hc2 : c ≠ '.' := fun h => hdot (h ▸ List.mem_cons_self c cs)
    have hgt' : '>' ∉ cs := fun h => hgt (List.mem_cons_of_mem c h)
    have hdot' : '.' ∉ cs := fun h => hdot (List.mem_cons_of_mem c h)
    show scanOpen (c :: (cs ++ '>' :: rest)) = _
    rw [scanOpen, if_neg hc1, if_neg hc2, ih rest hgt' hdot']
    simp [Nat.add_comm, Nat.add_assoc]

/-- If the first three characters are not the literal `<h1`, the pattern
does not match here. -/
theorem matchAt_eq_none {l : List Char}
    (h : ¬ (['<', 'h', '1'] <+: l)) : matchAt l = none := by
  unfold matchAt
  rw [if_neg]
  intro hc
  exact h (hc ▸ List.take_prefix 3 l)

/-- The lazy `.*?</h1>` consumes exactly through the earliest `</h1>`:
when `inner` contains no occurrence of it (even straddling into the
closing tag), the scan stops at the appended close tag. -/
theorem scanClose_append :
    ∀ (inner : List Char) (b : List Char),
    (∀ i < inner.length,
      ¬ (['<', '/', 'h', '1', '>'] <+:
        (inner ++ '<' :: '/' :: 'h' :: '1' :: '>' :: b).drop i)) →
    scanClose (inner ++ '<' :: '/' :: 'h' :: '1' :: '>' :: b) =
      some (inner.length + 5) := by
  intro inner
  induction inner with
  | nil => intro b _; rfl
  | cons c cs ih =>
    intro b hin
    have h0 : ¬ (['<', '/', 'h', '1', '>'] <+:
        (c :: cs ++ '<' :: '/' :: 'h' :: '1' :: '>' :: b)) := by
      have := hin 0 (Nat.succ_pos _)
      simpa using this
    have hcond : ¬ ((c :: (cs ++ '<' :: '/' :: 'h' :: '1' :: '>' :: b)).take 5 =
        ['<', '/', 'h', '1', '>']) := by
      intro hc
      exact h0 (hc ▸ List.take_prefix 5 _)
    have hin' : ∀ i < cs.length,
        ¬ (['<', '/', 'h', '1', '>'] <+:
          (cs ++ '<' :: '/' :: 'h' :: '1' :: '>' :: b).drop i) := by
      intro i hi
      have := hin (i + 1) (by simp only [List.length_cons]; omega)
      simpa using this
    show scanClose (c :: (cs ++ '<' :: '/' :: 'h' :: '1' :: '>' :: b)) = _
    rw [scanClose, if_neg hcond, ih b hin']
    rfl

/-- The pattern matches, with its full lazy length, at the head of a
well-formed `<h1 attrs>inner</h1>` block: through the first `'>'`
(no `'.'`/`'>'` in the attribute text), then to the earliest `</h1>`. -/
theorem matchAt_block (attrs inner b : List Char)
    (hgt : '>' ∉ attrs) (hdot : '.' ∉ attrs)
    (hin : ∀ i < inner.length,
      ¬ (['<', '/', 'h', '1', '>'] <+:
        (inner ++ '<' :: '/' :: 'h' :: '1' :: '>' :: b).drop i)) :
    matchAt ('<' :: 'h' :: '1' ::
        (attrs ++ '>' :: (inner ++ '<' :: '/' :: 'h' :: '1' :: '>' :: b))) =
      some (3 + (attrs.length + 1) + (inner.length + 5)) := by
  have hopen := scanOpen_append attrs
    (inner ++ '<' :: '/' :: 'h' :: '1' :: '>' :: b) hgt hdot
  have hclose := scanClose_append inner b hin
  have hd3 : (('<' : Char) :: 'h' :: '1' ::
      (attrs ++ '>' :: (inner ++ '<' :: '/' :: 'h' :: '1' :: '>' :: b))).drop 3 =
      attrs ++ '>' :: (inner ++ '<' :: '/' :: 'h' :: '1' :: '>' :: b) := rfl
  have hform : (('<' : Char) :: 'h' :: '1' ::
      (attrs ++ '>' :: (inner ++ '<' :: '/' :: 'h' :: '1' :: '>' :: b))) =
      (('<' : Char) :: 'h' :: '1' :: (attrs ++ ['>'])) ++
        (inner ++ '<' :: '/' :: 'h' :: '1' :: '>' :: b) := by simp
  have hlen : (('<' : Char) :: 'h' :: '1' :: (attrs ++ ['>'])).length =
      3 + (attrs.length + 1) := by
    simp only [List.length_cons, List.length_append, List.length_nil]
    omega
  have hdrop : (('<' : Char) :: 'h' :: '1' ::
      (attrs ++ '>' :: (inner ++ '<' :: '/' :: 'h' :: '1' :: '>' :: b))).drop
        (3 + (attrs.length + 1)) =
      inner ++ '<' :: '/' :: 'h' :: '1' :: '>' :: b := by
    rw [hform, ← hlen]
    simp
  have hc : (('<' : Char) :: 'h' :: '1' ::
      (attrs ++ '>' :: (inner ++ '<' :: '/' :: 'h' :: '1' :: '>' :: b))).take 3 =
      ['<', 'h', '1'] := rfl
  unfold matchAt
  rw [if_pos hc, hd3, hopen, Option.some_bind, hdrop, hclose, Option.map_some']

/-- `subFirst` steps over a position where the pattern does not match. -/
theorem subFirst_cons_none {c : Char} {cs : List Char}
    (h : matchAt (c :: cs) = none) :
    subFirst (c :: cs) = c :: subFirst cs := by
  rw [subFirst, h]

/-- `subFirst` deletes the match found at the present position. -/
theorem subFirst_cons_some {c : Char} {cs : List Char} {n : Nat}
    (h : matchAt (c :: cs) = some n) :
    subFirst (c :: cs) = (c :: cs).drop n := by
  rw [subFirst, h]

/-- A region with no occurrence of the literal `<h1` is copied unchanged
by the leftmost-match scan. -/
theorem subFirst_skip (a : List Char) :
    ∀ (rest : List Char),
    (∀ i < a.length, ¬ (['<', 'h', '1'] <+: (a ++ rest).drop i)) →
    subFirst (a ++ rest) = a ++ subFirst rest := by
  induction a with
  | nil => intro rest _; rfl
  | cons c a' ih =>
    intro rest h
    have h0 : ¬ (['<', 'h', '1'] <+: (c :: (a' ++ rest))) := by
      have := h 0 (Nat.succ_pos _)
      simpa using this
    have h' : ∀ i < a'.length, ¬ (['<', 'h', '1'] <+: (a' ++ rest).drop i) := by
      intro i hi
      have := h (i + 1) (by simp only [List.length_cons]; omega)
      simpa using this
    show subFirst (c :: (a' ++ rest)) = _
    rw [subFirst_cons_none (matchAt_eq_none h0), ih rest h']
    rfl

/-- C5: for every markup of the form
`a ++ <h1 attrs>inner</h1> ++ b` — first `<h1` occurrence at that block,
no `'>'`/`'.'` in the attribute text, `inner` free of `</h1>` — the
builder's strip (`re.sub(..., count=1)`) removes exactly that first
level-1 block and nothing else: the output body is `a ++ b`, so any second
level-1 block contained in `b` is retained verbatim. -/
theorem c5_strip_removes_first_block (a attrs inner b : List Char)
    (ha : ∀ i < a.length,
      ¬ (['<', 'h', '1'] <+:
        (a ++ '<' :: 'h' :: '1' ::
          (attrs ++ '>' :: (inner ++ '<' :: '/' :: 'h' :: '1' :: '>' :: b))).drop i))
    (hgt : '>' ∉ attrs) (hdot : '.' ∉ attrs)
    (hin : ∀ i < inner.length,
      ¬ (['<', '/', 'h', '1', '>'] <+:
        (inner ++ '<' :: '/' :: 'h' :: '1' :: '>' :: b).drop i)) :
    subFirst (a ++ '<' :: 'h' :: '1' ::
      (attrs ++ '>' :: (inner ++ '<' :: '/' :: 'h' :: '1' :: '>' :: b))) =
      a ++ b := by
  rw [subFirst_skip a _ ha]
  congr 1
  rw [subFirst_cons_some (matchAt_block attrs inner b hgt hdot hin)]
  have hform2 : (('<' : Char) :: 'h' :: '1' ::
      (attrs ++ '>' :: (inner ++ '<' :: '/' :: 'h' :: '1' :: '>' :: b))) =
      (('<' : Char) :: 'h' :: '1' ::
        (attrs ++ '>' :: (inner ++ ['<', '/', 'h', '1', '>']))) ++ b := by
    simp
  have hlen2 : (('<' : Char) :: 'h' :: '1' ::
      (attrs ++ '>' :: (inner ++ ['<', '/', 'h', '1', '>']))).length =
      3 + (attrs.length + 1) + (inner.length + 5) := by
    simp only [List.length_cons, List.length_append, List.length_nil]
    omega
  rw [hform2, ← hlen2]
  simp

/-- Witness for C5: `x<h1 id="a">T</h1><h1>Z</h1>` — the first block is
removed, the leading text and the entire second `<h1>Z</h1>` block stay
verbatim. -/
theorem c5_witness :
    subFirst (['x'] ++ '<' :: 'h' :: '1' ::
      ([' ', 'i', 'd', '=', '"', 'a', '"'] ++ '>' ::
        (['T'] ++ '<' :: '/' :: 'h' :: '1' :: '>' ::
          ['<', 'h', '1', '>', 'Z', '<', '/', 'h', '1', '>']))) =
      ['x'] ++ ['<', 'h', '1', '>', 'Z', '<', '/', 'h', '1', '>'] :=
  c5_strip_removes_first_block ['x'] [' ', 'i', 'd', '=', '"', 'a', '"'] ['T']
    ['<', 'h', '1', '>', 'Z', '<', '/', 'h', '1', '>']
    (by decide) (by decide) (by decide) (by decide)

/-- The tag-contents component of `splitTag` is a prefix of the input. -/
theorem splitTag_fst_pre : ∀ l : List Char, (splitTag l).1 <+: l := by
  intro l
  induction l with
  | nil => exact List.nil_prefix
  | cons c rest ih =>
    by_cases hc : c = '>'
    · simp [splitTag, hc]
    · simpa [splitTag, hc] using ih

/-- The remainder component of `splitTag` is a suffix of the input. -/
theorem splitTag_snd_suffix : ∀ l : List Char, (splitTag l).2 <:+ l := by
  intro l
  induction l with
  | nil => exact List.nil_suffix
  | cons c rest ih =>
    by_cases hc : c = '>'
    · simp [splitTag, hc]
    · simp only [splitTag, hc, if_false]
      exact ih.trans (List.suffix_cons c rest)

/-- Unfolding `hasH1Open` on a nonempty list. -/
theorem hasH1Open_cons {c : Char} {cs : List Char}
    (h : hasH1Open (c :: cs) = false) :
    isH1OpenAt (c :: cs) = false ∧ hasH1Open cs = false := by
  rw [hasH1Open] at h
  exact ⟨by
    rcases Bool.or_eq_false_iff.mp h with ⟨h1, _⟩
    exact h1,
  by
    rcases Bool.or_eq_false_iff.mp h with ⟨_, h2⟩
    exact h2⟩

/-- `hasH1Open` is monotone along dropping a prefix. -/
theorem hasH1Open_append : ∀ (t l : List Char),
    hasH1Open (t ++ l) = false → hasH1Open l = false := by
  intro t
  induction t with
  | nil => exact fun l h => h
  | cons c t' ih =>
    intro l h
    exact ih l (hasH1Open_cons h).2

/-- `hasH1Open` is monotone onto suffixes. -/
theorem hasH1Open_suffix {l' l : List Char} (hs : l' <:+ l)
    (h : hasH1Open l = false) : hasH1Open l' = false := by
  obtain ⟨t, rfl⟩ := hs
  exact hasH1Open_append t l' h

/-- A literal `<h1` prefix is in particular a (case-insensitive) level-1
open tag. -/
theorem isH1OpenAt_of_open_lit {l : List Char}
    (h : ['<', 'h', '1'] <+: l) : isH1OpenAt l = true := by
  obtain ⟨t, rfl⟩ := h
  rfl

/-- Without any level-1 open tag there is no pattern match anywhere, and
the strip returns the document unchanged. -/
theorem subFirst_of_no_h1 : ∀ l : List Char,
    hasH1Open l = false → subFirst l = l := by
  intro l
  induction l with
  | nil => intro _; rfl
  | cons c cs ih =>
    intro h
    obtain ⟨h1, h2⟩ := hasH1Open_cons h
    have hnp : ¬ (['<', 'h', '1'] <+: (c :: cs)) := by
      intro hp
      rw [isH1OpenAt_of_open_lit hp] at h1
      exact absurd h1 (by decide)
    rw [subFirst_cons_none (matchAt_eq_none hnp), ih h2]

/-- If `parseTagEvent` yields an `h1` start tag, the tag contents begin
with two characters lowercasing to `h`, `1`. -/
theorem parseTagEvent_h1 {inner : List Char} {a : List (String × String)}
    (h : parseTagEvent inner = .starttag "h1" a) :
    ∃ d1 d2 t, inner = d1 :: d2 :: t ∧
      d1.toLower = 'h' ∧ d2.toLower = '1' := by
  cases inner with
  | nil => simp [parseTagEvent, lowerStr] at h
  | cons c rest =>
    by_cases hc : c = '/'
    · subst hc
      simp [parseTagEvent] at h
    · have hname : lowerStr ((c :: rest).takeWhile isNameChar) = "h1" := by
        simp [parseTagEvent, hc] at h
        exact h.1
      have hmap : ((c :: rest).takeWhile isNameChar).map Char.toLower =
          ['h', '1'] := by
        have := congrArg String.data hname
        simpa [lowerStr] using this
      obtain ⟨d1, w, hw, hd1, hmapw⟩ := List.map_eq_cons_iff.mp hmap
      obtain ⟨d2, w2, hw2, hd2, hmapw2⟩ := List.map_eq_cons_iff.mp hmapw
      have hw2nil : w2 = [] := by
        simpa using hmapw2
      have htk : (c :: rest).takeWhile isNameChar = [d1, d2] := by
        rw [hw, hw2, hw2nil]
      obtain ⟨t, ht⟩ := List.takeWhile_prefix (l := c :: rest) isNameChar
      rw [htk] at ht
      exact ⟨d1, d2, t, ht.symm, hd1, hd2⟩

/-- Tokenizing a document with no level-1 open tag yields no `h1` start
event. -/
theorem tokenizeAux_no_h1 : ∀ (fuel : Nat) (l : List Char),
    hasH1Open l = false →
    ∀ e ∈ tokenizeAux fuel l, isH1Start e = false := by
  intro fuel
  induction fuel with
  | zero => intro l _ e he; simp [tokenizeAux] at he
  | succ fuel ih =>
    intro l hl e he
    cases l with
    | nil => simp [tokenizeAux] at he
    | cons c rest =>
      by_cases hc : c = '<'
      · subst hc
        rw [tokenizeAux, if_pos rfl] at he
        rcases List.mem_cons.mp he with he1 | he2
        · subst he1
          cases hev : parseTagEvent (splitTag rest).1 with
          | starttag tg at_ =>
            by_cases htg : tg = "h1"
            · subst htg
              obtain ⟨d1, d2, t, hin, hd1, hd2⟩ := parseTagEvent_h1 hev
              obtain ⟨t2, ht2⟩ := splitTag_fst_pre rest
              rw [hin] at ht2
              have hopen : isH1OpenAt ('<' :: rest) = true := by
                rw [← ht2]
                simp [isH1OpenAt, hd1, hd2]
              rw [hasH1Open, hopen] at hl
              simp at hl
            · simp [isH1Start, htg]
          | endtag tg => rfl
          | data d => rfl
        · have hsuf : hasH1Open (splitTag rest).2 = false :=
            hasH1Open_suffix
              ((splitTag_snd_suffix rest).trans (List.suffix_cons '<' rest)) hl
          exact ih (splitTag rest).2 hsuf e he2
      · rw [tokenizeAux, if_neg hc] at he
        rcases List.mem_cons.mp he with he1 | he2
        · subst he1; rfl
        · have hsuf : hasH1Open ((c :: rest).dropWhile (fun x => x ≠ '<')) =
              false :=
            hasH1Open_suffix (List.dropWhile_suffix _) hl
          exact ih _ hsuf e he2

/-- Any successful step on a non-`h1`-start event preserves "no page title
yet, and not capturing into the title". -/
theorem processEvent_no_h1 {st st' : IntroParserState} {e : HEvent}
    (he : isH1Start e = false) (hp : processEvent st e = .ok st')
    (h1 : st.page_title = none) (h2 : st.recent_tag ≠ some "h1") :
    st'.page_title = none ∧ st'.recent_tag ≠ some "h1" := by
  cases e with
  | starttag t a =>
    have ht : t ≠ "h1" := by
      intro hh
      rw [hh] at he
      simp [isH1Start] at he
    by_cases h2t : t = "h2"
    · subst h2t
      simp [processEvent, handle_starttag] at hp
      rw [← hp]
      exact ⟨h1, by simp⟩
    · by_cases h3t : t = "h3"
      · subst h3t
        by_cases htoc : st.toc = []
        · simp [processEvent, handle_starttag, htoc] at hp
        · simp [processEvent, handle_starttag, htoc] at hp
          rw [← hp]
          exact ⟨h1, by simp⟩
      · have : processEvent st (.starttag t a) = .ok st := by
          simp [processEvent, handle_starttag, ht, h2t, h3t]
        rw [this] at hp
        cases hp
        exact ⟨h1, h2⟩
  | endtag t =>
    have hst : st' = handle_endtag st t := by
      have : processEvent st (.endtag t) = .ok (handle_endtag st t) := rfl
      rw [this] at hp
      cases hp
      rfl
    subst hst
    by_cases hcase : t = "h1" ∨ t = "h2" ∨ t = "h3"
    · simp [handle_endtag, hcase]
      exact h1
    · simp [handle_endtag, hcase]
      exact ⟨h1, h2⟩
  | data d =>
    cases hrec : st.recent_tag with
    | none =>
      have : processEvent st (.data d) = .ok st := by
        simp [processEvent, handle_data, hrec]
      rw [this] at hp
      cases hp
      exact ⟨h1, h2⟩
    | some t =>
      have ht : t ≠ "h1" := by
        intro hh
        rw [hh] at hrec
        exact h2 hrec
      by_cases h23 : t = "h2" ∨ t = "h3"
      · cases hcur : st.current with
        | init => simp [processEvent, handle_data, hrec, ht, h23, hcur] at hp
        | sec =>
          simp [processEvent, handle_data, hrec, ht, h23, hcur] at hp
          rw [← hp]
          refine ⟨h1, ?_⟩
          simpa [hrec] using h2
        | sub =>
          simp [processEvent, handle_data, hrec, ht, h23, hcur] at hp
          rw [← hp]
          refine ⟨h1, ?_⟩
          simpa [hrec] using h2
      · have : processEvent st (.data d) = .ok st := by
          have h2f : ¬ t = "h2" := fun hh => h23 (Or.inl hh)
          have h3f : ¬ t = "h3" := fun hh => h23 (Or.inr hh)
          simp [processEvent, handle_data, hrec, ht, h2f, h3f]
        rw [this] at hp
        cases hp
        exact ⟨h1, h2⟩

/-- A run over events containing no `h1` start tag, begun with no page
title and no open title capture, ends (when it succeeds) with no page
title. -/
theorem runEvents_no_h1 : ∀ (evs : List HEvent) (st : IntroParserState),
    (∀ e ∈ evs, isH1Start e = false) →
    st.page_title = none → st.recent_tag ≠ some "h1" →
    ∀ st', runEvents st evs = .ok st' → st'.page_title = none := by
  intro evs
  induction evs with
  | nil =>
    intro st _ h1 _ st' hr
    cases hr
    exact h1
  | cons e es ih =>
    intro st hno h1 h2 st' hr
    rw [runEvents] at hr
    cases hpe : processEvent st e with
    | error err => rw [hpe] at hr; cases hr
    | ok st1 =>
      rw [hpe, Except.bind] at hr
      obtain ⟨g1, g2⟩ := processEvent_no_h1
        (hno e (List.mem_cons_self e es)) hpe h1 h2
      exact ih st1 (fun x hx => hno x (List.mem_cons_of_mem e hx)) g1 g2 st' hr

/-- C8: for a raw markup string containing no level-1 heading (no
case-insensitive `<h1` open tag anywhere), the strip leaves the body
exactly equal to the original markup, and whenever the builder succeeds
its artifact has that unchanged body and an absent title. -/
theorem c8_no_h1_heading (s : String) (h : hasH1Open s.data = false) :
    stripFirstH1 s = s ∧
    ∀ d, _MakeIntroDict s = .ok d →
      d.intro = Handlebar.mk s ∧ d.title = none := by
  have hstrip : stripFirstH1 s = s := by
    unfold stripFirstH1
    rw [subFirst_of_no_h1 s.data h]
  refine ⟨hstrip, ?_⟩
  intro d hd
  unfold _MakeIntroDict at hd
  cases hfeed : feed initState s with
  | error e => rw [hfeed] at hd; cases hd
  | ok p =>
    rw [hfeed] at hd
    cases hd
    have hnh1 : ∀ e ∈ tokenize s.data, isH1Start e = false :=
      tokenizeAux_no_h1 s.data.length s.data h
    have hpt : p.page_title = none :=
      runEvents_no_h1 (tokenize s.data) initState hnh1 rfl
        (by simp [initState]) p hfeed
    exact ⟨by rw [hstrip], hpt⟩

/-- Witness for C8: `<h2 id="a">A</h2>` has no level-1 heading; the body
is unchanged and the built artifact has an absent title. -/
theorem c8_witness :
    stripFirstH1 "<h2 id=\"a\">A</h2>" = "<h2 id=\"a\">A</h2>" ∧
    (_MakeIntroDict "<h2 id=\"a\">A</h2>" =
      .ok { intro := ⟨"<h2 id=\"a\">A</h2>"⟩,
            toc := [⟨"a", "A", []⟩], title := none }) ∧
    ({ intro := ⟨"<h2 id=\"a\">A</h2>"⟩, toc := [⟨"a", "A", []⟩],
       title := none } : IntroDict).title = none :=
  ⟨(c8_no_h1_heading "<h2 id=\"a\">A</h2>" (by decide)).1, rfl,
    ((c8_no_h1_heading "<h2 id=\"a\">A</h2>" (by decide)).2
      { intro := ⟨"<h2 id=\"a\">A</h2>"⟩, toc := [⟨"a", "A", []⟩],
        title := none } rfl).2⟩
